import Mathlib

namespace Clar2Wasm

/-!
Verification of the clar2wasm code generator (src/clar2wasm/src/wasm_generator.rs).

This file is a shallow embedding of the parts of the generator that the
specification makes claims about:

* a byte-addressed linear memory together with little-endian multi-byte
  stores and loads (the memory model of the emitted Wasm code);
* a small operand-stack machine covering the instructions the generator
  emits (const, global get/set of the stack pointer, local get/set/tee,
  add, drop, aligned stores/loads and calls to host-interface imports);
* the type-to-slot mapping `clar2wasm_ty`;
* the memory codec `write_to_memory` / `read_from_memory`, embedded as the
  exact instruction sequences those functions emit;
* the literal pool `add_string_literal` / `add_identifier_string_literal` /
  `add_literal`;
* the function prologue/epilogue of `traverse_define_function` and the
  stack-frame allocation of `create_call_stack_local`;
* the export lists produced by `generate` and the `traverse_define_*`
  family;
* the instruction-emission order of `traverse_some`, `traverse_err`,
  `traverse_concat` and `traverse_call_user_defined`;
* the compiled `fold` loop of `traverse_fold` and the result value of
  `visit_var_set`.
-/

/-! ## Byte-addressed linear memory -/

/-- Linear memory: a total map from byte addresses to byte values. -/
def Mem : Type := Nat → Nat

/-- Update one byte of memory. -/
def Mem.set (m : Mem) (a v : Nat) : Mem :=
  fun x => if x = a then v else m x

/-- Store the `n` low-order bytes of `v` at addresses `a, a+1, ...`,
least-significant byte first (little-endian, as Wasm stores are). -/
def storeBytes : Nat → Mem → Nat → Nat → Mem
  | 0, m, _, _ => m
  | n + 1, m, a, v => storeBytes n (m.set a (v % 256)) (a + 1) (v / 256)

/-- Load `n` bytes starting at address `a`, recombining them
least-significant byte first. -/
def loadBytes : Nat → Mem → Nat → Nat
  | 0, _, _ => 0
  | n + 1, m, a => m a + 256 * loadBytes n m (a + 1)

/-! ## The operand-stack machine

Instructions emitted by the generator that the claims depend on.  The
`globalGet`/`globalSet` instructions act on the single mutable global the
generator uses, the stack pointer (`stack_pointer` in `WasmGenerator`).
`store64 k`/`load64 k` are `I64Store`/`I64Load` with constant offset `k`
(`MemArg` offset), and similarly for the 32-bit forms.  `callHost f n`
calls a host-interface import `f` taking `n` operands; host imports can
read and write linear memory and push results, but cannot touch the
module's globals or the caller's locals. -/

inductive Instr where
  | i32Const (n : Nat)
  | i64Const (n : Nat)
  | globalGet
  | globalSet
  | localGet (l : Nat)
  | localSet (l : Nat)
  | localTee (l : Nat)
  | i32Add
  | i32Sub
  | drop
  | store64 (k : Nat)
  | store32 (k : Nat)
  | load64 (k : Nat)
  | load32 (k : Nat)
  | callHost (f : String) (nargs : Nat)
  deriving DecidableEq, Repr

/-- Machine state: the stack-pointer global, the locals, linear memory and
the operand (data) stack, top of stack first. -/
structure MState where
  sp : Nat
  locals : Nat → Nat
  mem : Mem
  stack : List Nat

/-- A host environment: what each host-interface import does, given its
popped arguments and the current memory; it returns the new memory and the
values it pushes. -/
def Host : Type := String → List Nat → Mem → Mem × List Nat

/-- One instruction step.  `none` is a stack underflow (never reached by
well-typed generated code). -/
def step (h : Host) : Instr → MState → Option MState
  | .i32Const n, st => some { st with stack := n % 2 ^ 32 :: st.stack }
  | .i64Const n, st => some { st with stack := n % 2 ^ 64 :: st.stack }
  | .globalGet, st => some { st with stack := st.sp :: st.stack }
  | .globalSet, st =>
    match st.stack with
    | v :: rest => some { st with sp := v, stack := rest }
    | [] => none
  | .localGet l, st => some { st with stack := st.locals l :: st.stack }
  | .localSet l, st =>
    match st.stack with
    | v :: rest =>
      some { st with locals := fun x => if x = l then v else st.locals x,
                     stack := rest }
    | [] => none
  | .localTee l, st =>
    match st.stack with
    | v :: _ =>
      some { st with locals := fun x => if x = l then v else st.locals x }
    | [] => none
  | .i32Add, st =>
    match st.stack with
    | b :: a :: rest => some { st with stack := (a + b) % 2 ^ 32 :: rest }
    | _ => none
  | .i32Sub, st =>
    match st.stack with
    | b :: a :: rest =>
      some { st with stack := (a + 2 ^ 32 - b % 2 ^ 32) % 2 ^ 32 :: rest }
    | _ => none
  | .drop, st =>
    match st.stack with
    | _ :: rest => some { st with stack := rest }
    | [] => none
  | .store64 k, st =>
    match st.stack with
    | v :: a :: rest =>
      some { st with mem := storeBytes 8 st.mem (a + k) v, stack := rest }
    | _ => none
  | .store32 k, st =>
    match st.stack with
    | v :: a :: rest =>
      some { st with mem := storeBytes 4 st.mem (a + k) v, stack := rest }
    | _ => none
  | .load64 k, st =>
    match st.stack with
    | a :: rest =>
      some { st with stack := loadBytes 8 st.mem (a + k) :: rest }
    | [] => none
  | .load32 k, st =>
    match st.stack with
    | a :: rest =>
      some { st with stack := loadBytes 4 st.mem (a + k) :: rest }
    | [] => none
  | .callHost f nargs, st =>
    if st.stack.length < nargs then none
    else
      let res := h f (st.stack.take nargs) st.mem
      some { st with mem := res.1, stack := res.2 ++ st.stack.drop nargs }

/-- Execute a straight-line instruction sequence. -/
def exec (h : Host) : List Instr → MState → Option MState
  | [], st => some st
  | i :: rest, st => (step h i st).bind (exec h rest)

/-! ## The Clarity type grammar and the type-to-slot mapping

`TypeSig` embeds the `TypeSignature` constructors that `clar2wasm_ty`
(src/clar2wasm/src/wasm_generator.rs, `fn clar2wasm_ty`) handles; the
remaining constructors of the Rust enum hit `unimplemented!` there and are
outside the closed grammar.  Tuple type signatures keep their fields in a
key-ordered map (`get_type_map` returns a `BTreeMap`), embedded here as
the canonically ordered association list. -/

inductive ValType where
  | i32
  | i64
  deriving DecidableEq, Repr

mutual

inductive TypeSig where
  | noType
  | intType
  | uintType
  | boolType
  | principalType
  | sequenceType (s : SeqSub)
  | optionalType (inner : TypeSig)
  | responseType (okTy errTy : TypeSig)
  | tupleType (fields : FieldList)

/-- A sequence subtype (`SequenceSubtype`): lists carry their element type
and static maximum length; buffers and strings carry a maximum length. -/
inductive SeqSub where
  | listType (elem : TypeSig) (maxLen : Nat)
  | bufferType (maxLen : Nat)
  | stringAsciiType (maxLen : Nat)
  | stringUtf8Type (maxLen : Nat)

/-- Tuple fields in canonical (key-sorted) order. -/
inductive FieldList where
  | nil
  | cons (key : String) (ty : TypeSig) (rest : FieldList)

end

mutual

/-- Embedding of `clar2wasm_ty`: convert a Clarity type signature to its
Wasm slot signature (the match arms appear in the source's order). -/
def clar2wasm_ty : TypeSig → List ValType
  | .noType => [.i32]
  | .intType => [.i64, .i64]
  | .uintType => [.i64, .i64]
  | .responseType okTy errTy =>
    .i32 :: (clar2wasm_ty okTy ++ clar2wasm_ty errTy)
  | .sequenceType _ => [.i32, .i32]
  | .boolType => [.i32]
  | .principalType => [.i32, .i32]
  | .optionalType inner => .i32 :: clar2wasm_ty inner
  | .tupleType fields => tuple_tys fields

/-- The tuple arm of `clar2wasm_ty`: extend with each field's slots, in the
type map's order. -/
def tuple_tys : FieldList → List ValType
  | .nil => []
  | .cons _ ty rest => clar2wasm_ty ty ++ tuple_tys rest

end

/-- Embedding of `add_placeholder_for_type`, restricted to the two value
types `clar2wasm_ty` produces: push a zero constant of the slot's type. -/
def add_placeholder_for_type : ValType → Instr
  | .i32 => .i32Const 0
  | .i64 => .i64Const 0

/-- Embedding of `add_placeholder_for_clarity_type`: one placeholder
instruction per Wasm slot of the Clarity type. -/
def add_placeholder_for_clarity_type (ty : TypeSig) : List Instr :=
  (clar2wasm_ty ty).map add_placeholder_for_type

mutual

/-- The closed grammar claim C3 quantifies over: every type built from
128-bit integers, booleans, principals, sequences, optionals, responses
and tuples (no `NoType` placeholder anywhere inside). -/
def inGrammar : TypeSig → Bool
  | .noType => false
  | .intType => true
  | .uintType => true
  | .boolType => true
  | .principalType => true
  | .sequenceType _ => true
  | .optionalType inner => inGrammar inner
  | .responseType okTy errTy => inGrammar okTy && inGrammar errTy
  | .tupleType fields => fieldsInGrammar fields

def fieldsInGrammar : FieldList → Bool
  | .nil => true
  | .cons _ ty rest => inGrammar ty && fieldsInGrammar rest

end

mutual

/-- The slot mapping exactly as the specification words it: two 64-bit
slots for 128-bit integers; one 32-bit slot for booleans; an
(offset, length) pair of 32-bit slots for principals and sequences; an
indicator slot followed by the inner slots for optionals; an indicator
slot followed by the ok-branch slots and the err-branch slots for
responses; the concatenation of the fields' slots in canonical key order
for tuples. -/
def slotSpec : TypeSig → List ValType
  | .noType => []
  | .intType => [.i64, .i64]
  | .uintType => [.i64, .i64]
  | .boolType => [.i32]
  | .principalType => [.i32, .i32]
  | .sequenceType _ => [.i32, .i32]
  | .optionalType inner => .i32 :: slotSpec inner
  | .responseType okTy errTy =>
    .i32 :: (slotSpec okTy ++ slotSpec errTy)
  | .tupleType fields => fieldSlotSpec fields

def fieldSlotSpec : FieldList → List ValType
  | .nil => []
  | .cons _ ty rest => slotSpec ty ++ fieldSlotSpec rest

end

/-! ## The memory codec

`write_to_memory` pops the operand-stack representation of a value of type
`ty` and stores it at the address held in local `ol` plus the constant
offset `off`; it is embedded as the instruction sequence the Rust function
emits, together with the byte count it returns.  `t1`/`t2` stand for the
two fresh scratch locals the Rust function allocates (`high`/`low` for
integers, `seq_offset`/`seq_length` for principals and sequences).  Types
outside the two supported groups hit `unimplemented!` and map to `none`. -/

def write_to_memory (ol off : Nat) (ty : TypeSig) (t1 t2 : Nat) :
    Option (List Instr × Nat) :=
  match ty with
  | .intType | .uintType =>
    some ([.localSet t2, .localSet t1,
           .localGet ol, .localGet t1, .store64 off,
           .localGet ol, .localGet t2, .store64 (off + 8)], 16)
  | .principalType | .sequenceType _ =>
    some ([.localSet t2, .localSet t1,
           .localGet ol, .localGet t1, .store32 off,
           .localGet ol, .localGet t2, .store32 (off + 4)], 8)
  | _ => none

/-- `read_from_memory`: load a value of type `ty` from the address held in
local `ol` plus constant offset `lo`, pushing its operand-stack
representation; embedded as the emitted instruction sequence plus the byte
count returned.  Optionals and responses recurse with accumulated
sub-offsets; `NoType` pushes a placeholder; the remaining types hit
`unimplemented!`. -/
def read_from_memory (ol lo : Nat) : TypeSig → Option (List Instr × Nat)
  | .intType =>
    some ([.localGet ol, .load64 lo, .localGet ol, .load64 (lo + 8)], 16)
  | .uintType =>
    some ([.localGet ol, .load64 lo, .localGet ol, .load64 (lo + 8)], 16)
  | .optionalType inner =>
    (read_from_memory ol (lo + 4) inner).map fun p =>
      ([.localGet ol, .load32 lo] ++ p.1, 4 + p.2)
  | .responseType okTy errTy =>
    (read_from_memory ol (lo + 4) okTy).bind fun pok =>
      (read_from_memory ol (lo + 4 + pok.2) errTy).map fun perr =>
        ([.localGet ol, .load32 lo] ++ pok.1 ++ perr.1, 4 + pok.2 + perr.2)
  | .principalType =>
    some ([.localGet ol, .load32 lo, .localGet ol, .load32 (lo + 4)], 8)
  | .sequenceType _ =>
    some ([.localGet ol, .load32 lo, .localGet ol, .load32 (lo + 4)], 8)
  | .noType => some ([.i32Const 0], 4)
  | _ => none

/-! ## The literal pool

Embedding of the generator state that backs `add_string_literal`,
`add_identifier_string_literal` and `add_literal`: the high-water mark
`literal_memory_end`, the deduplication map `literal_memory_offet` (sic;
the source spells it that way), and the module's data segments.  Strings
are keyed by their rendered display text (`s.to_string()` in the source);
the rendering lives in the external `clarity` crate, so it enters the
embedding as a parameter `disp` mapping a string value to its display
text's bytes.  Identifiers are keyed by their own bytes in the same map. -/

/-- `CharType`: an ASCII string (byte list) or a UTF8 string (a list of
per-character byte encodings). -/
inductive CharType where
  | ascii (data : List Nat)
  | utf8 (data : List (List Nat))
  deriving DecidableEq, Repr

/-- The payload bytes `add_string_literal` stores: ASCII data verbatim,
UTF8 data flattened. -/
def CharType.encodedBytes : CharType → List Nat
  | .ascii s => s
  | .utf8 u => u.flatten

/-- Generator literal-pool state. -/
structure LiteralPool where
  literal_memory_end : Nat
  literal_memory_offet : List (List Nat × Nat)
  dataSegments : List (Nat × List Nat)
  deriving DecidableEq, Repr

/-- The empty pool of a fresh generator (`literal_memory_end: 0`). -/
def emptyPool : LiteralPool :=
  { literal_memory_end := 0, literal_memory_offet := [], dataSegments := [] }

/-- Embedding of `add_string_literal`: on a display-text hit return the
recorded offset and the display text's length; on a miss append the
encoded bytes at the high-water mark and record the display text's
offset. -/
def add_string_literal (disp : CharType → List Nat) (g : LiteralPool)
    (s : CharType) : (Nat × Nat) × LiteralPool :=
  match (g.literal_memory_offet).lookup (disp s) with
  | some offset => ((offset, (disp s).length), g)
  | none =>
    let data := s.encodedBytes
    let offset := g.literal_memory_end
    ((offset, data.length),
     { literal_memory_end := g.literal_memory_end + data.length,
       literal_memory_offet := (disp s, offset) :: g.literal_memory_offet,
       dataSegments := (offset, data) :: g.dataSegments })

/-- Embedding of `add_identifier_string_literal`: identifiers (ASCII by
construction) are keyed by their own bytes in the same map. -/
def add_identifier_string_literal (g : LiteralPool) (name : List Nat) :
    (Nat × Nat) × LiteralPool :=
  match (g.literal_memory_offet).lookup name with
  | some offset => ((offset, name.length), g)
  | none =>
    let offset := g.literal_memory_end
    ((offset, name.length),
     { literal_memory_end := g.literal_memory_end + name.length,
       literal_memory_offet := (name, offset) :: g.literal_memory_offet,
       dataSegments := (offset, name) :: g.dataSegments })

/-- Little-endian byte encoding of the `n` low-order bytes of `v`. -/
def leBytes : Nat → Nat → List Nat
  | 0, _ => []
  | n + 1, v => v % 256 :: leBytes n (v / 256)

/-- The literal values `add_literal` accepts (the remaining `Value`
constructors hit `unimplemented!`). -/
inductive LitValue where
  | int (i : Int)
  | uint (u : Nat)
  | principalStandard (version : Nat) (hash : List Nat)
  | principalContract (version : Nat) (hash : List Nat) (name : List Nat)
  | buffer (data : List Nat)
  | string (s : CharType)
  deriving DecidableEq, Repr

/-- A 128-bit integer reinterpreted as an unsigned 128-bit value
(`*i as u128`). -/
def asU128 (i : Int) : Nat := (i % (2 ^ 128 : Nat)).toNat

/-- The bytes `add_literal` emits for each non-string literal: integers as
two little-endian 64-bit halves, low half first; a standard principal as
version byte, 20-byte hash, a zero 32-bit contract-name length and four
further zero bytes; a contract principal as version byte, issuer hash,
32-bit name length and the name's bytes; buffers verbatim. -/
def litBytes : LitValue → List Nat
  | .int i => leBytes 8 (asU128 i % 2 ^ 64) ++ leBytes 8 (asU128 i / 2 ^ 64)
  | .uint u => leBytes 8 (u % 2 ^ 64) ++ leBytes 8 (u / 2 ^ 64)
  | .principalStandard version hash =>
    version :: hash ++ leBytes 4 0 ++ [0, 0, 0, 0]
  | .principalContract version hash name =>
    version :: hash ++ leBytes 4 name.length ++ name
  | .buffer data => data
  | .string _ => []

/-- Is the literal a string (the one case `add_literal` delegates)? -/
def LitValue.isStringLit : LitValue → Bool
  | .string _ => true
  | _ => false

/-- Embedding of `add_literal`: strings delegate to `add_string_literal`;
every other literal is appended to the literal memory unconditionally (no
lookup in, and no insertion into, the deduplication map). -/
def add_literal (disp : CharType → List Nat) (g : LiteralPool)
    (v : LitValue) : (Nat × Nat) × LiteralPool :=
  match v with
  | .string s => add_string_literal disp g s
  | v =>
    let data := litBytes v
    let offset := g.literal_memory_end
    ((offset, data.length),
     { literal_memory_end := g.literal_memory_end + data.length,
       literal_memory_offet := g.literal_memory_offet,
       dataSegments := (offset, data) :: g.dataSegments })

/-- A display rendering used to instantiate `disp` in concrete runs: it
keys a string by the byte encoding of its first character, so an ASCII
string and a UTF8 string can share a display key while storing different
payload encodings. -/
def sampleDisp : CharType → List Nat
  | .ascii d => d.take 1
  | .utf8 u => u.flatten.take 1

/-! ## Function frames: prologue, allocation, epilogue

From `traverse_define_function` and `create_call_stack_local`.  `fp` is
the fresh frame-pointer local the prologue allocates. -/

/-- The function prelude: save the stack pointer in the frame-pointer
local. -/
def function_prelude (fp : Nat) : List Instr :=
  [.globalGet, .localSet fp]

/-- The function postlude: restore the initial stack pointer from the
frame-pointer local. -/
def function_postlude (fp : Nat) : List Instr :=
  [.localGet fp, .globalSet]

/-- Embedding of the code `create_call_stack_local` emits: remember the
current stack pointer in local `l` as the allocation's base, then advance
the stack pointer by `size`. -/
def create_call_stack_local (l size : Nat) : List Instr :=
  [.globalGet, .localTee l, .i32Const size, .i32Add, .globalSet]

/-- The full code layout `traverse_define_function` produces for a
function: prelude, body (the source wraps it in a block that falls
through), postlude. -/
def traverse_define_function_instrs (fp : Nat) (body : List Instr) :
    List Instr :=
  function_prelude fp ++ body ++ function_postlude fp

/-- Does an instruction sequence write local `l` (via `local.set` or
`local.tee`)? -/
def writesLocal (l : Nat) : List Instr → Bool
  | [] => false
  | .localSet x :: rest => x = l || writesLocal l rest
  | .localTee x :: rest => x = l || writesLocal l rest
  | _ :: rest => writesLocal l rest

/-! ## var-set -/

/-- Embedding of the code `visit_var_set` emits after the value expression
(type `ty`) has been compiled: allocate call-stack space for the value,
write the value to memory, push the identifier's offset/length and the
allocation's offset/size, call the `set_variable` host import, and finally
push the constant `true` (`var-set` always returns `true`). -/
def visit_var_set_instrs (ty : TypeSig) (t1 t2 ol size idOffset idLength : Nat) :
    Option (List Instr) :=
  (write_to_memory ol 0 ty t1 t2).map fun w =>
    create_call_stack_local ol size ++ w.1 ++
    [.i32Const idOffset, .i32Const idLength,
     .localGet ol, .i32Const size,
     .callHost "set_variable" 4,
     .i32Const 1]

/-! ## fold

Semantic model of the loop `traverse_fold` emits.  The compiled code
evaluates the sequence (leaving offset and runtime length on the operand
stack), drops the runtime length, computes the loop's end offset as
`base + maxLen * elemSize` from the list type's static maximum length,
evaluates the initial value, and — unless the static maximum length is
zero, in which case no loop is emitted at all — runs a do-while loop that
loads an element, calls the folding function, advances the element offset
and branches back while the offset is below the end offset.  The model
returns the folded result together with the number of calls made to the
folding function; `runtimeLen` is the dropped runtime length. -/

def fold_loop {α : Type} (f : α → α) (sz : Nat) (cur endOff : Nat)
    (acc : α) (calls : Nat) : α × Nat :=
  let acc' := f acc
  let cur' := cur + sz
  if h : sz = 0 ∨ endOff ≤ cur' then (acc', calls + 1)
  else fold_loop f sz cur' endOff acc' (calls + 1)
termination_by endOff - cur
decreasing_by
  simp only [not_or, not_le] at h
  omega

def traverse_fold {α : Type} (maxLen runtimeLen sz base : Nat)
    (f : α → α) (init : α) : α × Nat :=
  -- the runtime length is dropped (`builder.drop()`) and never consulted
  let _ := runtimeLen
  let endOff := base + maxLen * sz
  if maxLen = 0 then (init, 0)
  else fold_loop f sz base endOff init 0

/-! ## Exports

From `generate`, `traverse_define_private`, `traverse_define_read_only`
and `traverse_define_public`: function defines add an export under the
source name for public and read-only kinds only; after the whole traversal
`generate` adds the distinguished `.top-level` initialization export. -/

inductive TopDef where
  | publicFn (name : String)
  | readOnlyFn (name : String)
  | privateFn (name : String)
  | otherDef
  deriving DecidableEq, Repr

/-- Exports added while traversing one top-level definition. -/
def traverse_define_exports : TopDef → List String
  | .publicFn n => [n]
  | .readOnlyFn n => [n]
  | .privateFn _ => []
  | .otherDef => []

/-- The name a definition is exported under, if any. -/
def exportedName : TopDef → Option String
  | .publicFn n => some n
  | .readOnlyFn n => some n
  | .privateFn _ => none
  | .otherDef => none

/-- Export list of the generated module: the traversal's exports in source
order, then the `.top-level` initialization export. -/
def generate_exports : List TopDef → List String
  | [] => [".top-level"]
  | d :: rest => traverse_define_exports d ++ generate_exports rest

/-! ## Instruction-emission order of composite forms

From `traverse_some`, `traverse_ok`, `traverse_err`, `traverse_concat`
and `traverse_call_user_defined`/`visit_call_user_defined`.  Child
expressions enter as the instruction sequences their own traversal
produced. -/

/-- `(some v)`: an `i32` 1, then the value's code. -/
def traverse_some_instrs (child : List Instr) : List Instr :=
  .i32Const 1 :: child

/-- `(ok v)`: an `i32` 1, then the ok value's code, then placeholders for
the err branch. -/
def traverse_ok_instrs (child errPlaceholders : List Instr) : List Instr :=
  .i32Const 1 :: (child ++ errPlaceholders)

/-- `(err v)`: an `i32` 0, then placeholders for the ok branch, then the
err value's code. -/
def traverse_err_instrs (okPlaceholders child : List Instr) : List Instr :=
  .i32Const 0 :: (okPlaceholders ++ child)

/-- `(concat a b)`: allocate the result sequence, then the lhs code, copy
it, then the rhs code, copy it, compute the total size and push the
result's offset and size. -/
def traverse_concat_instrs (lhs rhs : List Instr)
    (offL endL sizeL size : Nat) : List Instr :=
  create_call_stack_local offL size ++ lhs ++
  [.localGet offL, .callHost "memcpy" 3, .localSet endL] ++ rhs ++
  [.localGet endL, .callHost "memcpy" 3,
   .localGet offL, .i32Sub, .localSet sizeL,
   .localGet offL, .localGet sizeL]

/-- Fallback call to a user-defined function: all argument expressions'
code left to right, then the call itself (a direct call in the source;
`callHost` stands in for a call instruction here). -/
def traverse_call_user_defined_instrs (argsCode : List (List Instr))
    (fname : String) (nargs : Nat) : List Instr :=
  argsCode.flatten ++ [.callHost fname nargs]

/-! ## Public-call transaction semantics

Modelled from the spec: the begin/commit/rollback wrapping of public calls
is performed by the host runtime (the `clarity` crate's Wasm support),
which is not part of this repository's sources; the generator only tags
each function with its kind (read-only 0, public 1, private 2) in the
`define_function` host call.  Per spec §4.7, a public call begins a
transaction, runs the body, and then inspects the response indicator of
the body's result: ok commits every state mutation of the body, err rolls
all of them back. -/

/-- A response-shaped result. -/
inductive Response (α β : Type) where
  | ok (a : α)
  | err (b : β)
  deriving DecidableEq, Repr

/-- The kind tag pushed for `define_function` (read-only 0, public 1,
private 2), from `traverse_define_function`. -/
def functionKindTag : TopDef → Option Nat
  | .publicFn _ => some 1
  | .readOnlyFn _ => some 0
  | .privateFn _ => some 2
  | .otherDef => none

/-- Modelled from the spec: invoke a public function.  The tracked
contract state is a map from variable names to values; the body returns
the mutated state and its response; commit keeps the mutated state on ok,
rollback restores the entry state on err. -/
def invoke_public {V α β : Type}
    (body : (String → V) → (String → V) × Response α β)
    (st : String → V) : (String → V) × Response α β :=
  match body st with
  | (st', Response.ok a) => (st', Response.ok a)
  | (_, Response.err b) => (st, Response.err b)

/-- A body that sets one tracked variable and then returns the given
response. -/
def set_var_then {V α β : Type} (name : String) (v : V)
    (r : Response α β) (st : String → V) : (String → V) × Response α β :=
  (fun x => if x = name then v else st x, r)

/-- A host environment that leaves memory unchanged and pushes nothing;
used to instantiate witnesses. -/
def silentHost : Host := fun _ _ m => (m, [])

/-! ## Supporting lemmas -/

theorem storeBytes_out (n : Nat) (m : Mem) (a v x : Nat)
    (h : x < a ∨ a + n ≤ x) : storeBytes n m a v x = m x := by
  induction n generalizing m a v with
  | zero => rfl
  | succ k ih =>
    simp only [storeBytes]
    rw [ih]
    · simp only [Mem.set]
      have hx : x ≠ a := by omega
      simp [hx]
    · omega

theorem loadBytes_storeBytes (n : Nat) (m : Mem) (a v : Nat) :
    loadBytes n (storeBytes n m a v) a = v % 256 ^ n := by
  induction n generalizing m a v with
  | zero => simp [loadBytes, Nat.mod_one]
  | succ k ih =>
    simp only [storeBytes, loadBytes]
    rw [ih]
    have hb : storeBytes k ((m.set a (v % 256))) (a + 1) (v / 256) a
        = v % 256 := by
      rw [storeBytes_out k _ _ _ a (by omega)]
      simp [Mem.set]
    rw [hb]
    have h256 : (256 : Nat) ^ (k + 1) = 256 * 256 ^ k := by ring
    rw [h256, Nat.mod_mul]

/-- Loading from a region disjoint from a store sees the old memory. -/
theorem loadBytes_storeBytes_disjoint (n k : Nat) (m : Mem) (a b v : Nat)
    (h : a + n ≤ b ∨ b + k ≤ a) :
    loadBytes n (storeBytes k m b v) a = loadBytes n m a := by
  induction n generalizing a with
  | zero => rfl
  | succ j ih =>
    simp only [loadBytes]
    rw [storeBytes_out k m b v a (by omega), ih _ (by omega)]

theorem exec_append (h : Host) (xs ys : List Instr) (st : MState) :
    exec h (xs ++ ys) st = (exec h xs st).bind (exec h ys) := by
  induction xs generalizing st with
  | nil => simp [exec]
  | cons i rest ih =>
    simp only [List.cons_append, exec]
    cases step h i st with
    | none => simp
    | some st' => simp [ih]

mutual

theorem clar2wasm_ty_eq_slotSpec :
    ∀ ty : TypeSig, inGrammar ty = true → clar2wasm_ty ty = slotSpec ty
  | .noType, h => by simp [inGrammar] at h
  | .intType, _ => rfl
  | .uintType, _ => rfl
  | .boolType, _ => rfl
  | .principalType, _ => rfl
  | .sequenceType _, _ => rfl
  | .optionalType inner, h => by
    simp only [inGrammar] at h
    simp only [clar2wasm_ty, slotSpec, clar2wasm_ty_eq_slotSpec inner h]
  | .responseType okTy errTy, h => by
    simp only [inGrammar, Bool.and_eq_true] at h
    simp only [clar2wasm_ty, slotSpec,
      clar2wasm_ty_eq_slotSpec okTy h.1, clar2wasm_ty_eq_slotSpec errTy h.2]
  | .tupleType fields, h => by
    simp only [inGrammar] at h
    simp only [clar2wasm_ty, slotSpec, tuple_tys_eq_fieldSlotSpec fields h]

theorem tuple_tys_eq_fieldSlotSpec :
    ∀ fs : FieldList, fieldsInGrammar fs = true → tuple_tys fs = fieldSlotSpec fs
  | .nil, _ => rfl
  | .cons _ ty rest, h => by
    simp only [fieldsInGrammar, Bool.and_eq_true] at h
    simp only [tuple_tys, fieldSlotSpec,
      clar2wasm_ty_eq_slotSpec ty h.1, tuple_tys_eq_fieldSlotSpec rest h.2]

end

theorem step_locals (h : Host) (l : Nat) (i : Instr) (st st' : MState)
    (hw : writesLocal l [i] = false)
    (hstep : step h i st = some st') : st'.locals l = st.locals l := by
  cases i with
  | i32Const n =>
    simp only [step, Option.some.injEq] at hstep; subst hstep; rfl
  | i64Const n =>
    simp only [step, Option.some.injEq] at hstep; subst hstep; rfl
  | globalGet =>
    simp only [step, Option.some.injEq] at hstep; subst hstep; rfl
  | globalSet =>
    rcases hs : st.stack with _ | ⟨v, r⟩ <;>
      simp [step, hs] at hstep
    subst hstep; rfl
  | localGet x =>
    simp only [step, Option.some.injEq] at hstep; subst hstep; rfl
  | localSet x =>
    have hx : x ≠ l := by
      simp only [writesLocal, Bool.or_eq_false_iff] at hw
      exact fun hh => by simp [hh] at hw
    rcases hs : st.stack with _ | ⟨v, r⟩ <;>
      simp [step, hs] at hstep
    subst hstep; simp [Ne.symm hx]
  | localTee x =>
    have hx : x ≠ l := by
      simp only [writesLocal, Bool.or_eq_false_iff] at hw
      exact fun hh => by simp [hh] at hw
    rcases hs : st.stack with _ | ⟨v, r⟩ <;>
      simp [step, hs] at hstep
    subst hstep; simp [Ne.symm hx]
  | i32Add =>
    rcases hs : st.stack with _ | ⟨v, _ | ⟨v2, r⟩⟩ <;>
      simp [step, hs] at hstep
    subst hstep; rfl
  | i32Sub =>
    rcases hs : st.stack with _ | ⟨v, _ | ⟨v2, r⟩⟩ <;>
      simp [step, hs] at hstep
    subst hstep; rfl
  | drop =>
    rcases hs : st.stack with _ | ⟨v, r⟩ <;>
      simp [step, hs] at hstep
    subst hstep; rfl
  | store64 k =>
    rcases hs : st.stack with _ | ⟨v, _ | ⟨v2, r⟩⟩ <;>
      simp [step, hs] at hstep
    subst hstep; rfl
  | store32 k =>
    rcases hs : st.stack with _ | ⟨v, _ | ⟨v2, r⟩⟩ <;>
      simp [step, hs] at hstep
    subst hstep; rfl
  | load64 k =>
    rcases hs : st.stack with _ | ⟨v, r⟩ <;>
      simp [step, hs] at hstep
    subst hstep; rfl
  | load32 k =>
    rcases hs : st.stack with _ | ⟨v, r⟩ <;>
      simp [step, hs] at hstep
    subst hstep; rfl
  | callHost f n =>
    by_cases hlen : st.stack.length < n <;> simp [step, hlen] at hstep
    subst hstep; rfl

theorem exec_preserves_local (h : Host) (l : Nat) :
    ∀ (code : List Instr) (st st' : MState),
      writesLocal l code = false → exec h code st = some st' →
      st'.locals l = st.locals l := by
  intro code
  induction code with
  | nil =>
    intro st st' _ hex
    simp only [exec, Option.some.injEq] at hex
    rw [← hex]
  | cons i rest ih =>
    intro st st' hw hex
    simp only [exec] at hex
    cases hstep : step h i st with
    | none => rw [hstep] at hex; simp at hex
    | some st1 =>
      rw [hstep] at hex
      simp only [Option.some_bind] at hex
      have hw1 : writesLocal l [i] = false := by
        cases i <;> simp only [writesLocal, Bool.or_eq_false_iff] at hw ⊢ <;>
          tauto
      have hw' : writesLocal l rest = false := by
        cases i <;> simp only [writesLocal, Bool.or_eq_false_iff] at hw <;>
          tauto
      rw [ih st1 st' hw' hex, step_locals h l i st st1 hw1 hstep]

theorem exec_function_prelude (h : Host) (fp : Nat) (st : MState) :
    exec h (function_prelude fp) st =
      some { st with
             locals := fun x => if x = fp then st.sp else st.locals x } := rfl

theorem exec_function_postlude (h : Host) (fp : Nat) (st : MState) :
    exec h (function_postlude fp) st =
      some { st with sp := st.locals fp } := rfl

theorem sp_restored_after_function (h : Host) (fp : Nat) (body : List Instr)
    (st st' : MState) (hw : writesLocal fp body = false)
    (hex : exec h (traverse_define_function_instrs fp body) st = some st') :
    st'.sp = st.sp := by
  unfold traverse_define_function_instrs at hex
  rw [exec_append, exec_append, exec_function_prelude] at hex
  simp only [Option.some_bind] at hex
  cases hb : exec h body
      { st with locals := fun x => if x = fp then st.sp else st.locals x } with
  | none => rw [hb] at hex; simp at hex
  | some st2 =>
    rw [hb] at hex
    simp only [Option.some_bind, exec_function_postlude,
      Option.some.injEq] at hex
    have h2 := exec_preserves_local h fp body _ st2 hw hb
    subst hex
    simp only [h2]
    simp

theorem alloc_advances_sp (h : Host) (l size : Nat) (st : MState) :
    ∃ st', exec h (create_call_stack_local l size) st = some st' ∧
      st'.sp = (st.sp + size) % 2 ^ 32 ∧
      st'.stack = st.stack ∧ st'.mem = st.mem := by
  refine ⟨_, rfl, ?_, rfl, rfl⟩
  show (st.sp + size % 2 ^ 32) % 2 ^ 32 = (st.sp + size) % 2 ^ 32
  omega

theorem add_string_literal_dedup (disp : CharType → List Nat)
    (g : LiteralPool) (s1 s2 : CharType) (hd : disp s1 = disp s2) :
    (add_string_literal disp (add_string_literal disp g s1).2 s2).1.1 =
      (add_string_literal disp g s1).1.1 ∧
    (add_string_literal disp (add_string_literal disp g s1).2 s2).1.2 =
      (disp s2).length ∧
    (add_string_literal disp (add_string_literal disp g s1).2 s2).2 =
      (add_string_literal disp g s1).2 := by
  cases hl : (g.literal_memory_offet).lookup (disp s1) with
  | some off =>
    have hl2 : (g.literal_memory_offet).lookup (disp s2) = some off := by
      rw [← hd]; exact hl
    simp [add_string_literal, hl, hl2]
  | none =>
    simp only [add_string_literal, hl]
    have hl2 : (((disp s1, g.literal_memory_end) ::
        g.literal_memory_offet).lookup (disp s2)) =
        some g.literal_memory_end := by
      simp [List.lookup, ← hd]
    simp [hl2]

theorem add_identifier_dedup (g : LiteralPool) (name : List Nat) :
    (add_identifier_string_literal
        (add_identifier_string_literal g name).2 name).1.1 =
      (add_identifier_string_literal g name).1.1 ∧
    (add_identifier_string_literal
        (add_identifier_string_literal g name).2 name).2 =
      (add_identifier_string_literal g name).2 := by
  cases hl : (g.literal_memory_offet).lookup name with
  | some off => simp [add_identifier_string_literal, hl]
  | none =>
    simp only [add_identifier_string_literal, hl]
    have hl2 : (((name, g.literal_memory_end) ::
        g.literal_memory_offet).lookup name) =
        some g.literal_memory_end := by
      simp [List.lookup]
    simp [hl2]

theorem add_literal_no_dedup (disp : CharType → List Nat) (g : LiteralPool)
    (v : LitValue) (hv : v.isStringLit = false) :
    (add_literal disp g v).1.1 = g.literal_memory_end ∧
    ((add_literal disp g v).2).dataSegments.length =
      g.dataSegments.length + 1 := by
  cases v <;> simp [LitValue.isStringLit] at hv ⊢ <;> simp [add_literal]

theorem generate_exports_count (defs : List TopDef) (n : String) :
    (generate_exports defs).count n =
      (defs.filterMap exportedName).count n +
        (if n = ".top-level" then 1 else 0) := by
  induction defs with
  | nil =>
    simp only [generate_exports, List.filterMap_nil, List.count_nil]
    by_cases hn : n = ".top-level" <;> simp [hn, List.count_cons]
  | cons d rest ih =>
    cases d <;>
      simp [generate_exports, traverse_define_exports, exportedName,
        List.count_cons, List.count_append, List.filterMap_cons, ih] <;>
      omega

theorem fold_loop_iterate {α : Type} (f : α → α) (sz : Nat) (hsz : 0 < sz) :
    ∀ (k cur calls : Nat) (acc : α), 0 < k →
      fold_loop f sz cur (cur + k * sz) acc calls = (f^[k] acc, calls + k) := by
  intro k
  induction k with
  | zero => intro cur calls acc hk; omega
  | succ j ih =>
    intro cur calls acc _
    rw [fold_loop]
    rcases Nat.eq_zero_or_pos j with hj | hj
    · subst hj
      have hcond : sz = 0 ∨ cur + 1 * sz ≤ cur + sz := by omega
      simp [hcond]
    · have hcond : ¬(sz = 0 ∨ cur + (j + 1) * sz ≤ cur + sz) := by
        push_neg
        refine ⟨by omega, ?_⟩
        have he : (j + 1) * sz = j * sz + sz := by ring
        have hp : 0 < j * sz := Nat.mul_pos hj hsz
        omega
      simp only [hcond, dite_false, dif_neg]
      have harr : cur + (j + 1) * sz = (cur + sz) + j * sz := by ring
      rw [harr, ih (cur + sz) (calls + 1) (f acc) hj,
        Function.iterate_succ_apply]
      simp only [Prod.mk.injEq]
      exact ⟨trivial, by omega⟩

theorem traverse_fold_iterates {α : Type} (f : α → α) (init : α)
    (maxLen n sz base : Nat) (hsz : 0 < sz) :
    traverse_fold maxLen n sz base f init = (f^[maxLen] init, maxLen) := by
  rcases Nat.eq_zero_or_pos maxLen with hm | hm
  · subst hm; simp [traverse_fold]
  · have hm' : maxLen ≠ 0 := by omega
    simp only [traverse_fold, hm', if_false, ite_false]
    have := fold_loop_iterate f sz hsz maxLen base 0 init hm
    simpa using this

theorem exec_trailing_one (h : Host) (xs : List Instr) (st st' : MState)
    (hex : exec h (xs ++ [.i32Const 1]) st = some st') :
    st'.stack.head? = some 1 := by
  rw [exec_append] at hex
  cases hx : exec h xs st with
  | none => rw [hx] at hex; simp at hex
  | some st1 =>
    rw [hx] at hex
    simp only [Option.some_bind, exec, step, Option.some_bind,
      Option.some.injEq] at hex
    subst hex
    rfl

theorem var_set_pushes_true (ty : TypeSig) (t1 t2 ol size idO idL : Nat)
    (code : List Instr)
    (hc : visit_var_set_instrs ty t1 t2 ol size idO idL = some code)
    (h : Host) (st st' : MState) (hex : exec h code st = some st') :
    st'.stack.head? = some 1 := by
  rcases hw : write_to_memory ol 0 ty t1 t2 with _ | ⟨w, sz⟩
  · rw [visit_var_set_instrs, hw] at hc; exact Option.noConfusion hc
  · rw [visit_var_set_instrs, hw] at hc
    have hc1 : (create_call_stack_local ol size ++ w ++
        [Instr.i32Const idO, Instr.i32Const idL, Instr.localGet ol,
         Instr.i32Const size, Instr.callHost "set_variable" 4,
         Instr.i32Const 1]) = code := Option.some.inj hc
    subst hc1
    apply exec_trailing_one h (create_call_stack_local ol size ++ w ++
        [Instr.i32Const idO, Instr.i32Const idL, Instr.localGet ol,
         Instr.i32Const size, Instr.callHost "set_variable" 4]) st st'
    simpa using hex

theorem codec_roundtrip64 (h : Host) (ol t1 t2 off sp : Nat)
    (locals : Nat → Nat) (mem : Mem) (v1 v2 : Nat) (rest : List Nat)
    (h1 : ol ≠ t1) (h2 : ol ≠ t2) (h3 : t1 ≠ t2)
    (hv1 : v1 < 2 ^ 64) (hv2 : v2 < 2 ^ 64) :
    ∃ st', exec h
      ([.localSet t2, .localSet t1,
        .localGet ol, .localGet t1, .store64 off,
        .localGet ol, .localGet t2, .store64 (off + 8)] ++
       [.localGet ol, .load64 off, .localGet ol, .load64 (off + 8)])
      ⟨sp, locals, mem, v1 :: v2 :: rest⟩ = some st' ∧
      st'.stack = v1 :: v2 :: rest := by
  refine ⟨_, rfl, ?_⟩
  have h3' : t2 ≠ t1 := Ne.symm h3
  have hpow : (256 : Nat) ^ 8 = 2 ^ 64 := by norm_num
  simp only [h1, h2, h3, ite_true, ite_false, if_neg, if_pos, ne_eq]
  rw [if_neg h3', loadBytes_storeBytes,
    loadBytes_storeBytes_disjoint 8 8 _ _ _ _ (by omega), loadBytes_storeBytes,
    hpow, Nat.mod_eq_of_lt hv1, Nat.mod_eq_of_lt hv2]

theorem codec_roundtrip32 (h : Host) (ol t1 t2 off sp : Nat)
    (locals : Nat → Nat) (mem : Mem) (v1 v2 : Nat) (rest : List Nat)
    (h1 : ol ≠ t1) (h2 : ol ≠ t2) (h3 : t1 ≠ t2)
    (hv1 : v1 < 2 ^ 32) (hv2 : v2 < 2 ^ 32) :
    ∃ st', exec h
      ([.localSet t2, .localSet t1,
        .localGet ol, .localGet t1, .store32 off,
        .localGet ol, .localGet t2, .store32 (off + 4)] ++
       [.localGet ol, .load32 off, .localGet ol, .load32 (off + 4)])
      ⟨sp, locals, mem, v1 :: v2 :: rest⟩ = some st' ∧
      st'.stack = v1 :: v2 :: rest := by
  refine ⟨_, rfl, ?_⟩
  have h3' : t2 ≠ t1 := Ne.symm h3
  have hpow : (256 : Nat) ^ 4 = 2 ^ 32 := by norm_num
  simp only [h1, h2, h3, ite_true, ite_false, if_neg, if_pos, ne_eq]
  rw [if_neg h3', loadBytes_storeBytes,
    loadBytes_storeBytes_disjoint 4 4 _ _ _ _ (by omega), loadBytes_storeBytes,
    hpow, Nat.mod_eq_of_lt hv1, Nat.mod_eq_of_lt hv2]

/-- C1: for every Clarity type supported by both directions of the memory
codec — 128-bit signed and unsigned integers, principals, and sequence
types — compiling a write of a value's operand-stack representation to
memory at some base offset followed by a read at the same base offset and
type pushes back exactly the original operand-stack representation
(`read(write(v, ty), ty) == v`), the byte counts of the two directions
agreeing, with both directions using one identical ordering convention for
the two 64-bit halves of 128-bit integers (the slot popped last is stored
at the lower address and is pushed back first). -/
theorem claim_C1 :
    (∀ (h : Host) (ol t1 t2 off sp : Nat) (locals : Nat → Nat) (mem : Mem)
       (v1 v2 : Nat) (rest : List Nat),
       ol ≠ t1 → ol ≠ t2 → t1 ≠ t2 → v1 < 2 ^ 64 → v2 < 2 ^ 64 →
       ∃ w r st',
         write_to_memory ol off .intType t1 t2 = some (w, 16) ∧
         read_from_memory ol off .intType = some (r, 16) ∧
         exec h (w ++ r) ⟨sp, locals, mem, v1 :: v2 :: rest⟩ = some st' ∧
         st'.stack = v1 :: v2 :: rest) ∧
    (∀ (h : Host) (ol t1 t2 off sp : Nat) (locals : Nat → Nat) (mem : Mem)
       (v1 v2 : Nat) (rest : List Nat),
       ol ≠ t1 → ol ≠ t2 → t1 ≠ t2 → v1 < 2 ^ 64 → v2 < 2 ^ 64 →
       ∃ w r st',
         write_to_memory ol off .uintType t1 t2 = some (w, 16) ∧
         read_from_memory ol off .uintType = some (r, 16) ∧
         exec h (w ++ r) ⟨sp, locals, mem, v1 :: v2 :: rest⟩ = some st' ∧
         st'.stack = v1 :: v2 :: rest) ∧
    (∀ (h : Host) (ol t1 t2 off sp : Nat) (locals : Nat → Nat) (mem : Mem)
       (v1 v2 : Nat) (rest : List Nat),
       ol ≠ t1 → ol ≠ t2 → t1 ≠ t2 → v1 < 2 ^ 32 → v2 < 2 ^ 32 →
       ∃ w r st',
         write_to_memory ol off .principalType t1 t2 = some (w, 8) ∧
         read_from_memory ol off .principalType = some (r, 8) ∧
         exec h (w ++ r) ⟨sp, locals, mem, v1 :: v2 :: rest⟩ = some st' ∧
         st'.stack = v1 :: v2 :: rest) ∧
    (∀ (s : SeqSub) (h : Host) (ol t1 t2 off sp : Nat) (locals : Nat → Nat)
       (mem : Mem) (v1 v2 : Nat) (rest : List Nat),
       ol ≠ t1 → ol ≠ t2 → t1 ≠ t2 → v1 < 2 ^ 32 → v2 < 2 ^ 32 →
       ∃ w r st',
         write_to_memory ol off (.sequenceType s) t1 t2 = some (w, 8) ∧
         read_from_memory ol off (.sequenceType s) = some (r, 8) ∧
         exec h (w ++ r) ⟨sp, locals, mem, v1 :: v2 :: rest⟩ = some st' ∧
         st'.stack = v1 :: v2 :: rest) := by
  refine ⟨?_, ?_, ?_, ?_⟩
  · intro h ol t1 t2 off sp locals mem v1 v2 rest h1 h2 h3 hv1 hv2
    obtain ⟨st', hex, hs⟩ :=
      codec_roundtrip64 h ol t1 t2 off sp locals mem v1 v2 rest h1 h2 h3 hv1 hv2
    exact ⟨_, _, st', rfl, rfl, hex, hs⟩
  · intro h ol t1 t2 off sp locals mem v1 v2 rest h1 h2 h3 hv1 hv2
    obtain ⟨st', hex, hs⟩ :=
      codec_roundtrip64 h ol t1 t2 off sp locals mem v1 v2 rest h1 h2 h3 hv1 hv2
    exact ⟨_, _, st', rfl, rfl, hex, hs⟩
  · intro h ol t1 t2 off sp locals mem v1 v2 rest h1 h2 h3 hv1 hv2
    obtain ⟨st', hex, hs⟩ :=
      codec_roundtrip32 h ol t1 t2 off sp locals mem v1 v2 rest h1 h2 h3 hv1 hv2
    exact ⟨_, _, st', rfl, rfl, hex, hs⟩
  · intro s h ol t1 t2 off sp locals mem v1 v2 rest h1 h2 h3 hv1 hv2
    obtain ⟨st', hex, hs⟩ :=
      codec_roundtrip32 h ol t1 t2 off sp locals mem v1 v2 rest h1 h2 h3 hv1 hv2
    exact ⟨_, _, st', rfl, rfl, hex, hs⟩

/-- C1 witness: the round trip at a concrete state, for a 128-bit integer
with slot values 5 and 7 written at base 40 with constant offset 3. -/
theorem claim_C1_witness :
    ((0 : Nat) ≠ 1 ∧ (0 : Nat) ≠ 2 ∧ (1 : Nat) ≠ 2 ∧
      (5 : Nat) < 2 ^ 64 ∧ (7 : Nat) < 2 ^ 64) ∧
    (∃ w r st',
      write_to_memory 0 3 .intType 1 2 = some (w, 16) ∧
      read_from_memory 0 3 .intType = some (r, 16) ∧
      exec silentHost (w ++ r) ⟨0, fun _ => 40, fun _ => 0, 5 :: 7 :: []⟩ =
        some st' ∧
      st'.stack = 5 :: 7 :: []) :=
  ⟨⟨by decide, by decide, by decide, by decide, by decide⟩,
   claim_C1.1 silentHost 0 1 2 3 0 (fun _ => 40) (fun _ => 0) 5 7 []
     (by decide) (by decide) (by decide) (by decide) (by decide)⟩

/-- C2: a public function's visible state effects are all-or-nothing,
selected by the response indicator of its own return value: if the body
returns an err response the state after the call is the state before it
(in particular a mutated tracked data variable reads back its old value);
if the body returns an ok response the mutated state — and so the
variable's new value — is visible after the call.  (The commit/rollback
wrapper itself is host-runtime behavior modelled from spec §4.7; the
generator marks function kinds via the `define_function` tag.) -/
theorem claim_C2 :
    (∀ (V α β : Type) (body : (String → V) → (String → V) × Response α β)
       (st : String → V) (b : β),
       (body st).2 = Response.err b → (invoke_public body st).1 = st) ∧
    (∀ (V α β : Type) (body : (String → V) → (String → V) × Response α β)
       (st : String → V) (a : α),
       (body st).2 = Response.ok a → (invoke_public body st).1 = (body st).1) ∧
    (∀ (V α β : Type) (name : String) (v : V) (e : β) (st : String → V),
       (invoke_public (set_var_then (α := α) name v (Response.err e)) st).1
         name = st name) ∧
    (∀ (V α β : Type) (name : String) (v : V) (o : α) (st : String → V),
       (invoke_public (set_var_then (β := β) name v (Response.ok o)) st).1
         name = v) ∧
    (∀ n : String, functionKindTag (TopDef.publicFn n) = some 1) := by
  refine ⟨?_, ?_, ?_, ?_, fun n => rfl⟩
  · intro V α β body st b hb
    unfold invoke_public
    rcases hbody : body st with ⟨st2, r⟩
    rw [hbody] at hb
    simp at hb
    subst hb
    rfl
  · intro V α β body st a ha
    unfold invoke_public
    rcases hbody : body st with ⟨st2, r⟩
    rw [hbody] at ha
    simp at ha
    subst ha
    simp [hbody]
  · intro V α β name v e st
    rfl
  · intro V α β name v o st
    simp [invoke_public, set_var_then]

/-- C2 witness: a body that sets variable `x` to 5 and returns err leaves
the store unchanged; the same body returning ok makes the update
visible. -/
theorem claim_C2_witness :
    ((set_var_then "x" (5 : Nat) (Response.err 3 : Response Nat Nat)
        (fun _ => (0 : Nat))).2 = Response.err 3 ∧
      (invoke_public (set_var_then "x" (5 : Nat)
        (Response.err 3 : Response Nat Nat)) (fun _ => (0 : Nat))).1 =
        (fun _ => (0 : Nat))) ∧
    ((set_var_then "x" (5 : Nat) (Response.ok 4 : Response Nat Nat)
        (fun _ => (0 : Nat))).2 = Response.ok 4 ∧
      (invoke_public (set_var_then "x" (5 : Nat)
        (Response.ok 4 : Response Nat Nat)) (fun _ => (0 : Nat))).1 =
        (set_var_then "x" (5 : Nat) (Response.ok 4 : Response Nat Nat)
          (fun _ => (0 : Nat))).1) :=
  ⟨⟨rfl, claim_C2.1 Nat Nat Nat _ (fun _ => 0) 3 rfl⟩,
   ⟨rfl, claim_C2.2.1 Nat Nat Nat _ (fun _ => 0) 4 rfl⟩⟩

/-- C3: the type-to-slot mapping is a pure, total function of the type
alone: over the closed grammar, `clar2wasm_ty` agrees with the slot
signature the specification words — 128-bit integers map to two 64-bit
slots; booleans to one 32-bit slot; principals and sequences to an
(offset, length) pair of 32-bit slots; optionals to an indicator slot
followed by the inner type's slots; responses to an indicator slot
followed by the ok-branch's and the err-branch's slots concatenated;
tuples to the concatenation of each field's slots in canonical key order —
and the placeholder emitter reserves exactly one instruction per slot, so
the inner slots of an optional are reserved even when absent. -/
theorem claim_C3 :
    (∀ ty : TypeSig, inGrammar ty = true → clar2wasm_ty ty = slotSpec ty) ∧
    (∀ ty : TypeSig,
      (add_placeholder_for_clarity_type ty).length =
        (clar2wasm_ty ty).length) :=
  ⟨clar2wasm_ty_eq_slotSpec,
   fun ty => by simp [add_placeholder_for_clarity_type]⟩

/-- C3 witness: the slot mapping at the concrete tuple
`(tuple (a int) (b bool))`. -/
theorem claim_C3_witness :
    inGrammar (.tupleType (.cons "a" .intType (.cons "b" .boolType .nil)))
      = true ∧
    clar2wasm_ty (.tupleType (.cons "a" .intType (.cons "b" .boolType .nil)))
      = slotSpec (.tupleType (.cons "a" .intType (.cons "b" .boolType .nil))) :=
  ⟨rfl, claim_C3.1 _ rfl⟩

/-- C4: for every compiled function the linear-memory stack pointer at
function exit equals its value at function entry: the prologue captures
the stack pointer into a fresh frame-pointer local, interior allocations
(`create_call_stack_local`) only advance the stack pointer (leaving the
operand stack and memory untouched), and the epilogue restores the stack
pointer from the frame pointer, so any body that does not write the fresh
frame-pointer local — as emitted bodies never do — exits with the entry
stack pointer, reclaiming all interior allocations in O(1). -/
theorem claim_C4 :
    (∀ (h : Host) (fp : Nat) (body : List Instr) (st st' : MState),
       writesLocal fp body = false →
       exec h (traverse_define_function_instrs fp body) st = some st' →
       st'.sp = st.sp) ∧
    (∀ (h : Host) (l size : Nat) (st : MState),
       ∃ st', exec h (create_call_stack_local l size) st = some st' ∧
         st'.sp = (st.sp + size) % 2 ^ 32 ∧
         st'.stack = st.stack ∧ st'.mem = st.mem) :=
  ⟨fun h fp body st st' hw hex =>
     sp_restored_after_function h fp body st st' hw hex,
   alloc_advances_sp⟩

/-- C4 witness: a function whose body is one 12-byte stack allocation,
entered with stack pointer 77, exits with stack pointer 77. -/
theorem claim_C4_witness :
    writesLocal 0 (create_call_stack_local 5 12) = false ∧
    (∃ st', exec silentHost
        (traverse_define_function_instrs 0 (create_call_stack_local 5 12))
        ⟨77, fun _ => 0, fun _ => 0, []⟩ = some st' ∧ st'.sp = 77) :=
  ⟨by decide,
   ⟨_, rfl,
    claim_C4.1 silentHost 0 (create_call_stack_local 5 12)
      ⟨77, fun _ => 0, fun _ => 0, []⟩ _ (by decide) rfl⟩⟩

/-- C5 counterexample: the claim fails for integer literals —
`add_literal` interns the integer literal 1 twice at different offsets
(0 and then 16) and writes its bytes into the literal memory twice. -/
theorem claim_C5_counterexample :
    (add_literal sampleDisp emptyPool (.int 1)).1.1 ≠
      (add_literal sampleDisp
        ((add_literal sampleDisp emptyPool (.int 1)).2) (.int 1)).1.1 ∧
    List.length (LiteralPool.dataSegments (add_literal sampleDisp
        ((add_literal sampleDisp emptyPool (.int 1)).2) (.int 1)).2) = 2 := by
  constructor
  · decide
  · decide

/-- C5 (amended): interning identical content twice returns the identical
offset both times, and identical content is never written into the literal
memory twice, for string literals and identifier literals (the second call
returns the first offset and leaves the pool unchanged); integer,
principal and buffer literals however are appended by `add_literal` on
every call, with no deduplication lookup, each call returning the current
high-water mark and adding one data segment. -/
theorem claim_C5 :
    (∀ (disp : CharType → List Nat) (g : LiteralPool) (s : CharType),
       (add_string_literal disp (add_string_literal disp g s).2 s).1.1 =
         (add_string_literal disp g s).1.1 ∧
       (add_string_literal disp (add_string_literal disp g s).2 s).2 =
         (add_string_literal disp g s).2) ∧
    (∀ (g : LiteralPool) (name : List Nat),
       (add_identifier_string_literal
           (add_identifier_string_literal g name).2 name).1.1 =
         (add_identifier_string_literal g name).1.1 ∧
       (add_identifier_string_literal
           (add_identifier_string_literal g name).2 name).2 =
         (add_identifier_string_literal g name).2) ∧
    (∀ (disp : CharType → List Nat) (g : LiteralPool) (v : LitValue),
       v.isStringLit = false →
       (add_literal disp g v).1.1 = g.literal_memory_end ∧
       ((add_literal disp g v).2).dataSegments.length =
         g.dataSegments.length + 1) :=
  ⟨fun disp g s =>
     ⟨(add_string_literal_dedup disp g s s rfl).1,
      (add_string_literal_dedup disp g s s rfl).2.2⟩,
   add_identifier_dedup,
   add_literal_no_dedup⟩

/-- C5 witness: a buffer literal is appended at the high-water mark and
adds one data segment on a fresh pool. -/
theorem claim_C5_witness :
    LitValue.isStringLit (.buffer [1, 2]) = false ∧
    ((add_literal sampleDisp emptyPool (.buffer [1, 2])).1.1 =
      emptyPool.literal_memory_end ∧
     List.length (LiteralPool.dataSegments
         (add_literal sampleDisp emptyPool (.buffer [1, 2])).2) =
       emptyPool.dataSegments.length + 1) :=
  ⟨by decide, claim_C5.2.2 sampleDisp emptyPool (.buffer [1, 2]) (by decide)⟩

/-- C6: for every compiled contract, the generated module exports exactly
one function per public source function and one per read-only source
function, each under its source name (the export multiset is exactly the
public/read-only names), plus the distinguished `.top-level`
initialization export; private functions are not exported. -/
theorem claim_C6 :
    ∀ defs : List TopDef,
      (∀ n : String, (generate_exports defs).count n =
        (defs.filterMap exportedName).count n +
          (if n = ".top-level" then 1 else 0)) ∧
      (∀ nm : String, TopDef.privateFn nm ∈ defs →
        nm ∉ defs.filterMap exportedName → nm ≠ ".top-level" →
        nm ∉ generate_exports defs) := by
  intro defs
  refine ⟨generate_exports_count defs, ?_⟩
  intro nm _ hnex hntop
  have hc := generate_exports_count defs nm
  rw [List.count_eq_zero.mpr hnex, if_neg hntop] at hc
  exact List.count_eq_zero.mp hc

/-- C6 witness: in a contract with a public `f`, a private `g`, a
read-only `r` and one other definition, `g` is not exported. -/
theorem claim_C6_witness :
    (TopDef.privateFn "g" ∈
        [TopDef.publicFn "f", TopDef.privateFn "g",
         TopDef.readOnlyFn "r", TopDef.otherDef] ∧
      "g" ∉ List.filterMap exportedName
        [TopDef.publicFn "f", TopDef.privateFn "g",
         TopDef.readOnlyFn "r", TopDef.otherDef] ∧
      "g" ≠ ".top-level") ∧
    "g" ∉ generate_exports
      [TopDef.publicFn "f", TopDef.privateFn "g",
       TopDef.readOnlyFn "r", TopDef.otherDef] :=
  ⟨⟨by decide, by decide, by decide⟩,
   (claim_C6 _).2 "g" (by decide) (by decide) (by decide)⟩

/-- C7 counterexample: the claim fails at `(some 1)` — the child's
instructions do not precede every parent instruction, because
`traverse_some` pushes the parent's `i32.const 1` indicator before the
child's code, so the emitted sequence is not the child's code followed by
the parent's own instructions. -/
theorem claim_C7_counterexample :
    ¬ ∃ own : List Instr,
      traverse_some_instrs [.i64Const 1, .i64Const 0] =
        [.i64Const 1, .i64Const 0] ++ own := by
  rintro ⟨own, hcontra⟩
  simp [traverse_some_instrs] at hcontra

/-- C7 (amended): each composite form compiles its child expressions'
code contiguously and in left-to-right order, and for fallback calls to
user-defined functions every parent instruction follows the children's
code; but `some`/`ok`/`err` emit their indicator (and placeholder)
instructions before or around the child's code, and `concat` emits its
allocation and copy instructions before, between and after its children's
code, so operands need not sit above all parent instructions. -/
theorem claim_C7 :
    (∀ (argsCode : List (List Instr)) (fname : String) (nargs : Nat),
       ∃ own, traverse_call_user_defined_instrs argsCode fname nargs =
         argsCode.flatten ++ own) ∧
    (∀ child : List Instr,
       traverse_some_instrs child = [.i32Const 1] ++ child) ∧
    (∀ child errPh : List Instr,
       traverse_ok_instrs child errPh = [.i32Const 1] ++ child ++ errPh) ∧
    (∀ okPh child : List Instr,
       traverse_err_instrs okPh child = ([.i32Const 0] ++ okPh) ++ child) ∧
    (∀ (lhs rhs : List Instr) (offL endL sizeL size : Nat),
       ∃ pre mid post,
         traverse_concat_instrs lhs rhs offL endL sizeL size =
           pre ++ lhs ++ mid ++ rhs ++ post ∧ pre ≠ []) := by
  refine ⟨?_, ?_, ?_, ?_, ?_⟩
  · intro argsCode fname nargs
    exact ⟨[.callHost fname nargs], rfl⟩
  · intro child; rfl
  · intro child errPh; simp [traverse_ok_instrs]
  · intro okPh child; simp [traverse_err_instrs]
  · intro lhs rhs offL endL sizeL size
    refine ⟨create_call_stack_local offL size,
      [.localGet offL, .callHost "memcpy" 3, .localSet endL],
      [.localGet endL, .callHost "memcpy" 3,
       .localGet offL, .i32Sub, .localSet sizeL,
       .localGet offL, .localGet sizeL], ?_, ?_⟩
    · simp [traverse_concat_instrs]
    · simp [create_call_stack_local]

/-- C8: the compiled `fold` loop iterates a number of times equal to the
list type's static maximum length — the runtime length pushed with the
sequence is dropped and never consulted, so the result is independent of
it — calling the folding function exactly `maxLen` times (the result is
the `maxLen`-fold iterate on the initial value); and when the static
maximum length is zero the compiled code yields the initial value without
ever calling the folding function. -/
theorem claim_C8 :
    (∀ (α : Type) (f : α → α) (init : α) (maxLen n m sz base : Nat),
       traverse_fold maxLen n sz base f init =
         traverse_fold maxLen m sz base f init) ∧
    (∀ (α : Type) (f : α → α) (init : α) (maxLen n sz base : Nat),
       0 < sz →
       traverse_fold maxLen n sz base f init = (f^[maxLen] init, maxLen)) ∧
    (∀ (α : Type) (f : α → α) (init : α) (n sz base : Nat),
       traverse_fold 0 n sz base f init = (init, 0)) := by
  refine ⟨?_, ?_, ?_⟩
  · intro α f init maxLen n m sz base; rfl
  · intro α f init maxLen n sz base hsz
    exact traverse_fold_iterates f init maxLen n sz base hsz
  · intro α f init n sz base; rfl

/-- C8 witness: folding successor over a list of static maximum length 3
with element size 16 calls the function exactly 3 times. -/
theorem claim_C8_witness :
    (0 : Nat) < 16 ∧
    traverse_fold 3 2 16 100 Nat.succ 0 = (Nat.succ^[3] 0, 3) :=
  ⟨by decide, claim_C8.2.1 Nat Nat.succ 0 3 2 16 100 (by decide)⟩

/-- C9: every compiled var-set expression leaves the 32-bit value 1
(Clarity `true`) on top of the operand stack as its result,
unconditionally and regardless of the outcome of the `set_variable` host
call (the property holds for every host environment). -/
theorem claim_C9 :
    ∀ (ty : TypeSig) (t1 t2 ol size idO idL : Nat) (code : List Instr),
      visit_var_set_instrs ty t1 t2 ol size idO idL = some code →
      ∀ (h : Host) (st st' : MState),
        exec h code st = some st' → st'.stack.head? = some 1 :=
  fun ty t1 t2 ol size idO idL code hc h st st' hex =>
    var_set_pushes_true ty t1 t2 ol size idO idL code hc h st st' hex

/-- C9 witness: a concrete var-set of a 128-bit integer executed against
a silent host ends with 1 on top of the stack. -/
theorem claim_C9_witness :
    ∃ code st',
      visit_var_set_instrs .intType 1 2 0 16 20 3 = some code ∧
      exec silentHost code ⟨0, fun _ => 50, fun _ => 0, [5, 7]⟩ = some st' ∧
      st'.stack.head? = some 1 :=
  ⟨_, _, rfl, rfl,
   claim_C9 .intType 1 2 0 16 20 3 _ rfl silentHost
     ⟨0, fun _ => 50, fun _ => 0, [5, 7]⟩ _ rfl⟩

/-- C10: string-literal interning uses a single deduplication map keyed
by the string's display text: any two strings with identical display text
— in particular an ASCII string and a UTF8 string — are interned at the
same offset (the second intern hits the first entry and leaves the pool
unchanged), and on a cache hit the returned length is the display-text
length, whatever the length of the byte encoding actually stored for the
entry. -/
theorem claim_C10 :
    ∀ (disp : CharType → List Nat) (g : LiteralPool) (s1 s2 : CharType),
      disp s1 = disp s2 →
      (add_string_literal disp (add_string_literal disp g s1).2 s2).1.1 =
        (add_string_literal disp g s1).1.1 ∧
      (add_string_literal disp (add_string_literal disp g s1).2 s2).1.2 =
        (disp s2).length ∧
      (add_string_literal disp (add_string_literal disp g s1).2 s2).2 =
        (add_string_literal disp g s1).2 :=
  add_string_literal_dedup

/-- C10 witness: under a display rendering keyed by the first character,
the UTF8 string with characters [[97, 98]] is stored with byte length 2;
interning the ASCII string [97], whose display text is identical, hits the
same entry at the same offset and returns the display-text length 1, which
differs from the stored encoding's length. -/
theorem claim_C10_witness :
    sampleDisp (.utf8 [[97, 98]]) = sampleDisp (.ascii [97]) ∧
    ((add_string_literal sampleDisp
        (add_string_literal sampleDisp emptyPool (.utf8 [[97, 98]])).2
        (.ascii [97])).1.1 =
      (add_string_literal sampleDisp emptyPool (.utf8 [[97, 98]])).1.1 ∧
     (add_string_literal sampleDisp
        (add_string_literal sampleDisp emptyPool (.utf8 [[97, 98]])).2
        (.ascii [97])).1.2 = (sampleDisp (.ascii [97])).length ∧
     (add_string_literal sampleDisp
        (add_string_literal sampleDisp emptyPool (.utf8 [[97, 98]])).2
        (.ascii [97])).2 =
       (add_string_literal sampleDisp emptyPool (.utf8 [[97, 98]])).2) ∧
    (add_string_literal sampleDisp emptyPool (.utf8 [[97, 98]])).1.2 = 2 ∧
    (add_string_literal sampleDisp
        (add_string_literal sampleDisp emptyPool (.utf8 [[97, 98]])).2
        (.ascii [97])).1.2 = 1 :=
  ⟨by decide,
   claim_C10 sampleDisp emptyPool (.utf8 [[97, 98]]) (.ascii [97]) (by decide),
   by decide, by decide⟩

end Clar2Wasm
